import Mathlib

/-!
Shallow embedding of the openwhisk-grpc distributed versioned key-value
store (packages `storage` and the server in `server.go`), together with
proofs about the behaviour of its operations.

Machine integers (`uint64`, `uint32`, Go `int`) are modelled as `Nat`
(resp. `Int` for the signed store size), with reductions `% 2 ^ 64` /
`% 2 ^ 32` written out exactly where the Go code truncates.
External collaborators (the 32-bit key hash from `utils`, the random
number generator, the gRPC transport and the action runtime) are passed
in as explicit parameters or oracle values.
-/

namespace OpenwhiskKV

/-- Modulus of Go `uint64` arithmetic. -/
def U64 : Nat := 2 ^ 64

/-- Modulus of Go `uint32` arithmetic. -/
def U32 : Nat := 2 ^ 32

/-- The root sentinel dependency, `math.MaxUint64` in the Go source. -/
def ROOT_DEP : Nat := U64 - 1

/-- A stored node (`storage.Node`): location, parent location (`Dep`),
child locations, key and value. -/
structure Node where
  location : Nat
  dep : Nat
  children : List Nat
  key : String
  value : String
deriving Repr, DecidableEq

/-- The server-local store (`storage.Store`): the node list, the map from
hash locations to memory locations (modelled as an association list whose
most recent binding comes first, like overwriting a Go map entry), and the
count of valid nodes (`Size`, a signed Go `int`). -/
structure Store where
  nodes : List Node
  memLocation : List (Nat × Nat)
  size : Int
deriving Repr, DecidableEq

/-- Lookup in the `MemLocation` map: first binding for the location wins. -/
def lookupLoc (m : List (Nat × Nat)) (loc : Nat) : Option Nat :=
  (m.find? (fun p => p.1 == loc)).map (fun p => p.2)

/-- `Store.Init` on an empty store: create the sentinel root node with
`Dep = MaxUint64`, `Location = 0`, empty key, and map location 0 to slot 0. -/
def Store.Init : Store :=
  { nodes := [{ location := 0, dep := ROOT_DEP, children := [], key := "", value := "" }],
    memLocation := [(0, 0)],
    size := 0 }

/-- `Store.newNode`: increment `Size`, append a fresh node with no
children, and map its location to the new slot. -/
def Store.newNode (s : Store) (location dep : Nat) (key value : String) : Store :=
  { nodes := s.nodes ++ [{ location := location, dep := dep, children := [], key := key, value := value }],
    memLocation := (location, s.nodes.length) :: s.memLocation,
    size := s.size + 1 }

/-- `Store.GetNode`: resolve a location through `MemLocation`; `none`
models the Go `nil` return for an unmapped location. -/
def Store.GetNode (s : Store) (loc : Nat) : Option Node :=
  (lookupLoc s.memLocation loc).bind (fun m => s.nodes.get? m)

/-- The location computed by `storage.Store.Set` and `storage.CreateNode`:
`uint64(rand.Uint32()) + (uint64(hash32(key)) << 32)` in `uint64`
arithmetic, where `h` is the 32-bit key hash and `r` the 32-bit random
draw. -/
def storeSetLoc (h r : Nat) : Nat := (r + (h <<< 32) % U64) % U64

/-- `storage.Store.Set`: compute the fresh location and install the node
via `newNode`; returns the location and the updated store. The key hash
`h` and the random draw `r` are passed in as oracle values. -/
def Store.Set (s : Store) (key value : String) (dep : Nat) (h r : Nat) : Nat × Store :=
  let loc := storeSetLoc h r
  (loc, s.newNode loc dep key value)

/-- `storage.Store.AddNode`: install a node received from another server;
the Go code passes only location/dep/key/value to `newNode`, dropping the
children list. -/
def Store.AddNode (s : Store) (n : Node) : Store :=
  s.newNode n.location n.dep n.key n.value

/-- `storage.Store.AddChild`: fetch the node, append the child to its
child list, return the updated node. `none` models the Go panic of
dereferencing the `nil` result of `GetNode` when the location is
unmapped. -/
def Store.AddChild (s : Store) (location child : Nat) : Option (Node × Store) :=
  match lookupLoc s.memLocation location with
  | none => none
  | some m =>
    match s.nodes.get? m with
    | none => none
    | some node =>
      let node2 := { node with children := node.children ++ [child] }
      some (node2, { s with nodes := s.nodes.set m node2 })

/-- One scan step of `storage.Store.RemoveNode`: find the first node whose
`Location` field matches, replace it by the zero-valued tombstone
`Node{Key: ""}`; `none` when no node matches. -/
def removeNodeLoop (location : Nat) : List Node → Option (List Node)
  | [] => none
  | n :: rest =>
    if n.location == location then
      some ({ location := 0, dep := 0, children := [], key := "", value := "" } :: rest)
    else
      (removeNodeLoop location rest).map (fun r => n :: r)

/-- `storage.Store.RemoveNode`: tombstone the first matching node and
decrement `Size`; do nothing when no node matches. -/
def Store.RemoveNode (s : Store) (location : Nat) : Store :=
  match removeNodeLoop location s.nodes with
  | none => s
  | some nodes2 => { s with nodes := nodes2, size := s.size - 1 }

/-- The walk of `storage.Store.Get`, with explicit fuel: resolve the
current location (Go would panic on `nil`, modelled as `none`), return the
value on a key match, report the not-found error at the root sentinel,
otherwise follow `Dep`. `none` also models running out of fuel (a walk
that does not terminate). -/
def Store.getLoop (s : Store) (key : String) : Nat → Nat → Option (Except String String)
  | _, 0 => none
  | loc, fuel + 1 =>
    match s.GetNode loc with
    | none => none
    | some node =>
      if node.key == key then
        some (Except.ok node.value)
      else if node.dep == ROOT_DEP then
        some (Except.error ("Key " ++ key ++ " not found"))
      else
        s.getLoop key node.dep fuel

/-- `storage.Store.Get`: the fueled walk starting at `loc`. -/
def Store.Get (s : Store) (key : String) (loc : Nat) (fuel : Nat) : Option (Except String String) :=
  s.getLoop key loc fuel

/-- The chain of nodes `Get` can walk from `loc`: each node in turn,
ending at the first node whose `Dep` is the root sentinel. `none` when a
location on the chain is unresolvable or fuel runs out. -/
def Store.depPath (s : Store) : Nat → Nat → Option (List Node)
  | _, 0 => none
  | loc, fuel + 1 =>
    match s.GetNode loc with
    | none => none
    | some node =>
      if node.dep == ROOT_DEP then
        some [node]
      else
        (s.depPath node.dep fuel).map (fun p => node :: p)

/-- `Server.SetIndexingLock` (server.go): given the current lock state and
the requested `Lock` flag, return the new lock state and the `Success`
flag of the response. -/
def setIndexingLock (lockState : Bool) (reqLock : Bool) : Bool × Bool :=
  if reqLock then
    if lockState == false then (true, true)
    else (lockState, false)
  else (false, true)

/-- The midpoint computed by `Server.splitRange`:
`mid := uint32((uint64(left) + uint64(right)) / 2)` — the sum taken in
64-bit arithmetic, halved, then truncated to 32 bits. -/
def splitMid (left right : Nat) : Nat := (((left + right) % U64) / 2) % U32

/-- The key-collection loop of `Server.splitRange`: walk `store.Nodes`
with its running index, skip slot 0 and tombstoned nodes, and collect the
32-bit hash (`utils.KeyHash`, passed in as `keyHash`) of each remaining
node's location. -/
def splitKeysLoop (keyHash : Nat → Nat) : Nat → List Node → List Nat
  | _, [] => []
  | i, n :: rest =>
    if i == 0 || n.key == "" then splitKeysLoop keyHash (i + 1) rest
    else keyHash n.location :: splitKeysLoop keyHash (i + 1) rest

/-- The counting loop of `Server.splitRange`: accumulate `(le, greater)`
over the collected hashes with the Go
`if key > mid { greater += 1 } else if key <= mid { le += 1 }` body. -/
def countLeGreater (mid : Nat) (keys : List Nat) : Nat × Nat :=
  keys.foldl
    (fun p k =>
      if mid < k then (p.1, p.2 + 1)
      else if k ≤ mid then (p.1 + 1, p.2)
      else p)
    (0, 0)

/-- The migration-selection loop of `Server.splitRange`: walk the node
list, skip tombstoned nodes, and for each remaining node consume the next
collected hash, keeping the node when its hash falls on the migrating
side of `mid`. `takeLe = true` is the `greater >= le` branch (migrate
hashes `≤ mid`), `takeLe = false` the other branch (migrate hashes
`> mid`). `none` models the Go panic of indexing past the end of the
collected `keys` array. -/
def migrateLoop (mid : Nat) (takeLe : Bool) : List Node → List Nat → Option (List Node)
  | [], _ => some []
  | n :: rest, ks =>
    if n.key == "" then migrateLoop mid takeLe rest ks
    else
      match ks with
      | [] => none
      | k :: ks2 =>
        let keep : Bool := if takeLe then decide (k ≤ mid) else decide (mid < k)
        (migrateLoop mid takeLe rest ks2).map (fun r => if keep then n :: r else r)

/-- The outcome of the partitioning stage of `Server.splitRange`: the
nodes sent to the peer via `AddNode`, and the `LeftServer`/`RightServer`
fields of the broadcast `Split` request. -/
structure SplitOutcome where
  migrated : List Node
  leftServer : String
  rightServer : String
deriving Repr, DecidableEq

/-- The partition-and-direction logic of `Server.splitRange` after the
midpoint computation: collect the hashes of the valid local nodes, count
the two sides of `mid`, and choose the migrated half together with the
server roles. `selfA` is the splitting server, `peer` the recruited
available server. -/
def splitRangeCore (keyHash : Nat → Nat) (nodes : List Node) (mid : Nat)
    (selfA peer : String) : Option SplitOutcome :=
  let keys := splitKeysLoop keyHash 0 nodes
  let counts := countLeGreater mid keys
  if counts.1 ≤ counts.2 then
    (migrateLoop mid true nodes keys).map
      (fun r => { migrated := r, leftServer := peer, rightServer := selfA })
  else
    (migrateLoop mid false nodes keys).map
      (fun r => { migrated := r, leftServer := selfA, rightServer := peer })

/-- A concrete three-slot node list (tombstoned root plus two valid
nodes in hash buckets 1 and 5) used to exercise the split partition. -/
def sampleSplitNodes : List Node :=
  [{ location := 0, dep := ROOT_DEP, children := [], key := "", value := "" },
   { location := 1 * 2 ^ 32, dep := 0, children := [], key := "a", value := "1" },
   { location := 5 * 2 ^ 32, dep := 0, children := [], key := "b", value := "2" }]

/-- The number of valid nodes in a node list: those whose key is
non-empty (the spec's validity criterion). The result is an `Int` so it
can be compared with the signed `Size` field. -/
def validCount (nodes : List Node) : Int :=
  ((nodes.filter (fun n => !(n.key == ""))).length : Int)

/-- The invariant claimed for the store: `Size` equals the number of
valid nodes. -/
def sizeInvariant (s : Store) : Prop :=
  s.size = validCount s.nodes

/-- The local branch of `Server.RemoveChildren`: look up the node (the
Go code dereferences the possibly-`nil` result, modelled as `none`),
`RemoveNode` every location in its child list, then clear the child list
through the retained slot. -/
def Store.RemoveChildrenLocal (s : Store) (location : Nat) : Option Store :=
  match lookupLoc s.memLocation location with
  | none => none
  | some m =>
    match s.nodes.get? m with
    | none => none
    | some node =>
      let s2 := node.children.foldl (fun st c => st.RemoveNode c) s
      match s2.nodes.get? m with
      | none => none
      | some nd => some { s2 with nodes := s2.nodes.set m { nd with children := [] } }

/-- The loop at the end of the merge path of `Server.Set`: re-attach each
replacement node under its `Dep` via `AddChild` (single-server, so every
`AddChild` lands locally; `none` models the panic on an unresolvable
dependency). -/
def addChildrenList (s : Store) : List Node → Option Store
  | [] => some s
  | n :: rest =>
    match s.AddChild n.dep n.location with
    | none => none
    | some (_, s2) => addChildrenList s2 rest

/-- The server-side state consulted by a local `Set`: the split
threshold, the available peers, the per-location merge-function table
and the global merge-function name. -/
structure ServerCfg where
  threshold : Int
  availableServers : List String
  mergeFunction : List (Nat × String)
  globalMergeFunction : String

/-- Lookup in the per-location merge-function table (a Go map, modelled
as an association list whose first binding wins). -/
def lookupMerge (m : List (Nat × String)) (loc : Nat) : Option String :=
  (m.find? (fun p => p.1 == loc)).map (fun p => p.2)

/-- The tail of `Server.Set` on the owning path: the split check
(`store.Size > Threshold` with an available peer runs `splitRange`,
which leaves the single-server model, hence `none`), then
`SetResponse{Location: loc}` with a nil error. -/
def finishSet (cfg : ServerCfg) (loc : Nat) (s : Store) : Option (Nat × Option String × Store) :=
  if cfg.threshold < s.size ∧ cfg.availableServers ≠ [] then none
  else some (loc, none, s)

/-- The owning (local) path of `Server.Set` on a single-server
deployment, where every routed sub-call (`AddChild`, `AddNode`,
`RemoveChildren`) lands on this same server: create the node via
`store.Set`, attach it under its dependency when `dep ≠ 0`, and when the
returned parent now has more than one child and a merge function is
configured, act on the decoded action response (`mergeResp` is the
outcome of `json.Unmarshal` on the `CallAction` reply): on a decoding
error, return the fresh location together with the error; on success,
install the replacement nodes, clear the old children and re-attach the
new ones. `h` and `r` are the key-hash and random-draw oracles of
`store.Set`. -/
def serverSetLocal (cfg : ServerCfg) (s : Store) (key value : String) (dep : Nat)
    (h r : Nat) (mergeResp : Except String (List Node)) :
    Option (Nat × Option String × Store) :=
  let pr := s.Set key value dep h r
  let loc := pr.1
  let s1 := pr.2
  if dep ≠ 0 then
    match s1.AddChild dep loc with
    | none => none
    | some (parent, s2) =>
      if 1 < parent.children.length then
        let merge := (lookupMerge cfg.mergeFunction dep).getD cfg.globalMergeFunction
        if merge ≠ "" then
          match mergeResp with
          | Except.error e => some (loc, some e, s2)
          | Except.ok newNodes =>
            let s3 := newNodes.foldl (fun st n => st.AddNode n) s2
            match s3.RemoveChildrenLocal parent.location with
            | none => none
            | some s4 =>
              match addChildrenList s4 newNodes with
              | none => none
              | some s5 => finishSet cfg loc s5
        else finishSet cfg loc s2
      else finishSet cfg loc s2
  else finishSet cfg loc s1

/-- The zero value `&db.Node{}` returned alongside a dial error. -/
def emptyNode : Node :=
  { location := 0, dep := 0, children := [], key := "", value := "" }

/-- The dispatch of `Server.Get`: handle locally when the indexing
service locates the key here, otherwise dial the owner (a dial failure
returns `&db.GetResponse{}` with the dial error) and return the remote
call's response pair unchanged. `localRes` is the local `store.Get`
outcome, `remote` the single remote response; the second component
counts remote invocations. -/
def serverGetDispatch (selfA addr : String) (localRes : String × Option String)
    (dialErr : Option String) (remote : String × Option String) :
    (String × Option String) × Nat :=
  if addr == selfA then (localRes, 0)
  else
    match dialErr with
    | some de => (("", some de), 0)
    | none => (remote, 1)

/-- The dispatch of `Server.GetNode`: as for `Get`, with `&db.Node{}`
as the zero response on a dial failure. -/
def serverGetNodeDispatch (selfA addr : String) (localRes : Node × Option String)
    (dialErr : Option String) (remote : Node × Option String) :
    (Node × Option String) × Nat :=
  if addr == selfA then (localRes, 0)
  else
    match dialErr with
    | some de => ((emptyNode, some de), 0)
    | none => (remote, 1)

/-- The dispatch of `Server.AddChild`: as for `GetNode`. -/
def serverAddChildDispatch (selfA addr : String) (localRes : Node × Option String)
    (dialErr : Option String) (remote : Node × Option String) :
    (Node × Option String) × Nat :=
  if addr == selfA then (localRes, 0)
  else
    match dialErr with
    | some de => ((emptyNode, some de), 0)
    | none => (remote, 1)

/-- The dispatch of `Server.RemoveChildren`: as above with the empty
response `&db.Empty{}`. -/
def serverRemoveChildrenDispatch (selfA addr : String) (localRes : Unit × Option String)
    (dialErr : Option String) (remote : Unit × Option String) :
    (Unit × Option String) × Nat :=
  if addr == selfA then (localRes, 0)
  else
    match dialErr with
    | some de => (((), some de), 0)
    | none => (remote, 1)

/-- The forwarded branch of `Server.Set`: dial the owner (returning the
dial error on failure), invoke the remote `Set` once, run the local
split check, and fall through to the function's final
`return result, nil` — which drops the remote call's error. The response
is the remote `SetResponse` location; `none` models entering
`splitRange` (which leaves the local model); the counter counts remote
`Set` invocations. The owning path is modelled by `serverSetLocal`. -/
def serverSetForward (selfA addr : String) (dialErr : Option String)
    (remote : Nat × Option String) (storeSize threshold : Int)
    (availableServers : List String) :
    Option ((Nat × Option String) × Nat) :=
  if addr == selfA then none
  else
    match dialErr with
    | some de => some ((0, some de), 0)
    | none =>
      if threshold < storeSize ∧ availableServers ≠ [] then none
      else some ((remote.1, none), 1)

/-- The `Get` result a walked path determines: the value of the first
node on the path whose key matches, or the not-found error. -/
def getResultOf (path : List Node) (key : String) : Except String String :=
  match path.find? (fun n => n.key == key) with
  | some n => Except.ok n.value
  | none => Except.error ("Key " ++ key ++ " not found")

theorem getLoop_eq_of_depPath (s : Store) (key : String) :
    ∀ (fuel loc : Nat) (path : List Node),
      s.depPath loc fuel = some path →
      s.getLoop key loc fuel = some (getResultOf path key) := by
  intro fuel
  induction fuel with
  | zero =>
    intro loc path h
    simp [Store.depPath] at h
  | succ fuel ih =>
    intro loc path h
    simp only [Store.depPath] at h
    simp only [Store.getLoop]
    cases hg : s.GetNode loc with
    | none => rw [hg] at h; simp at h
    | some node =>
      rw [hg] at h
      dsimp only at h ⊢
      cases hroot : node.dep == ROOT_DEP with
      | true =>
        simp only [hroot, if_true] at h
        have hpath : path = [node] := by
          simpa using h.symm
        subst hpath
        cases hk : node.key == key with
        | true =>
          simp [hk, hroot, getResultOf, List.find?]
        | false =>
          simp [hk, hroot, getResultOf, List.find?]
      | false =>
        simp only [hroot, Bool.false_eq_true, if_false] at h
        cases hrec : s.depPath node.dep fuel with
        | none => rw [hrec] at h; simp at h
        | some p2 =>
          rw [hrec] at h
          simp only [Option.map_some'] at h
          have hpath : path = node :: p2 := by
            simpa using h.symm
          subst hpath
          cases hk : node.key == key with
          | true =>
            simp [hk, getResultOf, List.find?]
          | false =>
            simp only [hk, Bool.false_eq_true, if_false, hroot]
            rw [ih node.dep p2 hrec]
            simp [getResultOf, List.find?, hk]

/-- Claim C2: for every key hash `h` and 32-bit random draw `r`, the
location returned by `Store.Set` satisfies `location >>> 32 = h`; the
computed `r + (h <<< 32)` equals `(h <<< 32) ||| r` because the random
summand is below `2 ^ 32` and cannot carry into the high 32 bits. -/
theorem set_location_high_bits (s : Store) (key value : String) (dep : Nat) (h r : Nat)
    (hh : h < U32) (hr : r < U32) :
    (s.Set key value dep h r).1 >>> 32 = h ∧
      (s.Set key value dep h r).1 = ((h <<< 32) ||| r) := by
  unfold U32 at hh hr
  have hshift : h <<< 32 = h * 2 ^ 32 := Nat.shiftLeft_eq h 32
  have hmul : h * 2 ^ 32 ≤ (2 ^ 32 - 1) * 2 ^ 32 :=
    Nat.mul_le_mul_right _ (by omega)
  have hlt : r + h * 2 ^ 32 < U64 := by
    have h64 : (2 ^ 32 - 1) * 2 ^ 32 + 2 ^ 32 = 2 ^ 64 := by norm_num
    unfold U64
    omega
  have hmod1 : (h <<< 32) % U64 = h <<< 32 := by
    apply Nat.mod_eq_of_lt
    rw [hshift]
    unfold U64
    omega
  have hloc : (s.Set key value dep h r).1 = r + h * 2 ^ 32 := by
    show storeSetLoc h r = r + h * 2 ^ 32
    unfold storeSetLoc
    rw [hmod1, hshift]
    exact Nat.mod_eq_of_lt hlt
  constructor
  · rw [hloc, Nat.shiftRight_eq_div_pow]
    rw [Nat.add_mul_div_right _ _ (by norm_num : 0 < 2 ^ 32)]
    rw [Nat.div_eq_of_lt hr]
    omega
  · rw [hloc, hshift]
    have := Nat.mul_add_lt_is_or (b := r) (i := 32) hr h
    rw [Nat.mul_comm (2 ^ 32) h] at this
    omega

/-- Witness for C2 at `h = 3`, `r = 5`. -/
theorem set_location_high_bits_witness :
    (Store.Init.Set "a" "v" 0 3 5).1 >>> 32 = 3 ∧
      (Store.Init.Set "a" "v" 0 3 5).1 = ((3 <<< 32) ||| 5) :=
  set_location_high_bits Store.Init "a" "v" 0 3 5 (by norm_num [U32]) (by norm_num [U32])

/-- Claim C4: requesting the indexing lock when it is already held fails
and leaves it held; requesting it when free succeeds and takes it;
releasing always succeeds and clears it. -/
theorem setIndexingLock_spec :
    setIndexingLock true true = (true, false) ∧
      setIndexingLock false true = (true, true) ∧
      (∀ b : Bool, setIndexingLock b false = (false, true)) := by
  refine ⟨rfl, rfl, ?_⟩
  intro b
  cases b <;> rfl

/-- Claim C6: `splitRange` computes the midpoint with the sum taken in
64-bit arithmetic before halving and 32-bit truncation, so for 32-bit
`left`, `right` it is the exact floor of `(left + right) / 2`; on the full
initial range it yields `2 ^ 31 - 1`. -/
theorem splitMid_exact (left right : Nat) (hl : left < U32) (hr : right < U32) :
    splitMid left right = (left + right) / 2 ∧
      splitMid 0 (U32 - 1) = 2 ^ 31 - 1 := by
  constructor
  · unfold splitMid
    have hsum : left + right < U64 := by
      unfold U32 at hl hr
      unfold U64
      omega
    rw [Nat.mod_eq_of_lt hsum]
    apply Nat.mod_eq_of_lt
    have : (left + right) / 2 < U32 := by
      apply Nat.div_lt_of_lt_mul
      unfold U32 at hl hr ⊢
      omega
    exact this
  · rfl

/-- Witness for C6 at `left = 7`, `right = 9`. -/
theorem splitMid_exact_witness :
    splitMid 7 9 = (7 + 9) / 2 ∧ splitMid 0 (U32 - 1) = 2 ^ 31 - 1 :=
  splitMid_exact 7 9 (by norm_num [U32]) (by norm_num [U32])

/-- Claim C1: for every key and start location such that the start
location and every dependency on the walked path resolve to stored nodes
(the chain reaches the root sentinel), `Store.Get` walks parent links and
returns the value of the first node on the path whose key matches, or the
error `Key k not found` if the walk reaches the root sentinel without a
match. -/
theorem get_returns_first_match (s : Store) (key : String) (loc fuel : Nat) (path : List Node)
    (h : s.depPath loc fuel = some path) :
    s.Get key loc fuel = some (getResultOf path key) :=
  getLoop_eq_of_depPath s key fuel loc path h

/-- Witness for C1: a store with one written node over the root, probed
with a matching key and with a missing key. -/
theorem get_returns_first_match_witness :
    (Store.Init.newNode 42 0 "a" "1").Get "a" 42 2 = some (Except.ok "1") ∧
      (Store.Init.newNode 42 0 "a" "1").Get "b" 42 2 =
        some (Except.error ("Key " ++ "b" ++ " not found")) := by
  constructor
  · rw [get_returns_first_match (Store.Init.newNode 42 0 "a" "1") "a" 42 2
      [{ location := 42, dep := 0, children := [], key := "a", value := "1" },
       { location := 0, dep := ROOT_DEP, children := [], key := "", value := "" }]
      (by decide)]
    rfl
  · rw [get_returns_first_match (Store.Init.newNode 42 0 "a" "1") "b" 42 2
      [{ location := 42, dep := 0, children := [], key := "a", value := "1" },
       { location := 0, dep := ROOT_DEP, children := [], key := "", value := "" }]
      (by decide)]
    rfl

theorem getLoop_error_reaches_root (s : Store) (key : String) :
    ∀ (fuel loc : Nat) (msg : String),
      s.getLoop key loc fuel = some (Except.error msg) →
      ∃ l n, s.GetNode l = some n ∧ n.dep = ROOT_DEP ∧ (n.key == key) = false := by
  intro fuel
  induction fuel with
  | zero =>
    intro loc msg h
    simp [Store.getLoop] at h
  | succ fuel ih =>
    intro loc msg h
    simp only [Store.getLoop] at h
    cases hg : s.GetNode loc with
    | none => rw [hg] at h; simp at h
    | some node =>
      rw [hg] at h
      dsimp only at h
      cases hk : node.key == key with
      | true => simp [hk] at h
      | false =>
        cases hroot : node.dep == ROOT_DEP with
        | true =>
          exact ⟨loc, node, hg, by simpa using hroot, hk⟩
        | false =>
          simp only [hk, hroot, Bool.false_eq_true, if_false] at h
          exact ih node.dep msg h

/-- Claim C9: `Store.Get` is partial at the public interface: a start
location with no entry in `MemLocation` makes `GetNode` return `nil` and
the walk dereference it (modelled as the `none` outcome), while a
not-found result can only arise by reaching a stored node that carries
the root sentinel dependency and a different key — never from an unknown
start location. -/
theorem get_partiality (s : Store) (key : String) (loc fuel : Nat) :
    (s.GetNode loc = none → s.Get key loc (fuel + 1) = none) ∧
      (∀ msg, s.Get key loc fuel = some (Except.error msg) →
        ∃ l n, s.GetNode l = some n ∧ n.dep = ROOT_DEP ∧ (n.key == key) = false) := by
  constructor
  · intro hg
    simp [Store.Get, Store.getLoop, hg]
  · intro msg h
    exact getLoop_error_reaches_root s key fuel loc msg h

/-- Witness for C9: the freshly initialized store crashes on the unknown
start location 99 and reaches the sentinel when started at the root. -/
theorem get_partiality_witness :
    Store.Init.Get "x" 99 4 = none ∧
      (∃ l n, Store.Init.GetNode l = some n ∧ n.dep = ROOT_DEP ∧ (n.key == "x") = false) :=
  ⟨(get_partiality Store.Init "x" 99 3).1 (by decide),
   (get_partiality Store.Init "x" 0 1).2 ("Key " ++ "x" ++ " not found") (by rfl)⟩

/-- Claim C10: when the dependency chain from the start location resolves
all the way to the root node (whose key is the empty string), `Store.Get`
with the empty-string key never returns the not-found error: the key
comparison runs on every node — the root sentinel included — before the
sentinel check, so the walk matches at or before the root and returns the
matched node's value. -/
theorem get_empty_key_matches (s : Store) (loc fuel : Nat) (path : List Node) (rootN : Node)
    (h : s.depPath loc fuel = some path)
    (hlast : path.getLast? = some rootN)
    (hkey : rootN.key = "") :
    ∃ n, path.find? (fun m => m.key == "") = some n ∧
      s.Get "" loc fuel = some (Except.ok n.value) := by
  have hmem : rootN ∈ path := List.mem_of_getLast?_eq_some hlast
  have hfind : (path.find? (fun m => m.key == "")).isSome := by
    rw [List.find?_isSome]
    exact ⟨rootN, hmem, by simp [hkey]⟩
  obtain ⟨n, hn⟩ := Option.isSome_iff_exists.mp hfind
  refine ⟨n, hn, ?_⟩
  have hget := getLoop_eq_of_depPath s "" fuel loc path h
  show s.getLoop "" loc fuel = some (Except.ok n.value)
  rw [hget]
  simp [getResultOf, hn]

/-- Witness for C10: the empty-key probe on a one-node store returns the
root's (empty) value instead of a not-found error. -/
theorem get_empty_key_matches_witness :
    ∃ n,
      (([{ location := 42, dep := 0, children := [], key := "a", value := "1" },
         { location := 0, dep := ROOT_DEP, children := [], key := "", value := "" }] : List Node).find?
          (fun m => m.key == "") = some n) ∧
      (Store.Init.newNode 42 0 "a" "1").Get "" 42 2 = some (Except.ok n.value) :=
  get_empty_key_matches (Store.Init.newNode 42 0 "a" "1") 42 2
    [{ location := 42, dep := 0, children := [], key := "a", value := "1" },
     { location := 0, dep := ROOT_DEP, children := [], key := "", value := "" }]
    { location := 0, dep := ROOT_DEP, children := [], key := "", value := "" }
    (by decide) (by decide) (by decide)

theorem splitKeysLoop_pos (keyHash : Nat → Nat) :
    ∀ (nodes : List Node) (i : Nat),
      splitKeysLoop keyHash (i + 1) nodes =
        (nodes.filter (fun n => !(n.key == ""))).map (fun n => keyHash n.location) := by
  intro nodes
  induction nodes with
  | nil => intro i; rfl
  | cons n rest ih =>
    intro i
    have hne : ((i + 1 : Nat) == 0) = false := by simp
    cases hk : n.key == "" with
    | true => simp [splitKeysLoop, List.filter, hne, hk, ih]
    | false => simp [splitKeysLoop, List.filter, hne, hk, ih]

theorem splitKeysLoop_zero (keyHash : Nat → Nat) (nodes : List Node)
    (h0 : ∀ n ∈ nodes.head?, n.key = "") :
    splitKeysLoop keyHash 0 nodes =
      (nodes.filter (fun n => !(n.key == ""))).map (fun n => keyHash n.location) := by
  cases nodes with
  | nil => rfl
  | cons n rest =>
    have hn : n.key = "" := h0 n rfl
    simp [splitKeysLoop, List.filter, hn, splitKeysLoop_pos keyHash rest 0]

theorem countLeGreater_foldl (mid : Nat) :
    ∀ (keys : List Nat) (p : Nat × Nat),
      keys.foldl
        (fun p k =>
          if mid < k then (p.1, p.2 + 1)
          else if k ≤ mid then (p.1 + 1, p.2)
          else p) p =
        (p.1 + keys.countP (fun k => decide (k ≤ mid)),
         p.2 + keys.countP (fun k => decide (mid < k))) := by
  intro keys
  induction keys with
  | nil => intro p; simp
  | cons k rest ih =>
    intro p
    simp only [List.foldl_cons, List.countP_cons]
    by_cases hk : mid < k
    · have hk2 : ¬ (k ≤ mid) := by omega
      rw [if_pos hk, ih]
      simp [hk, hk2]
      omega
    · have hk2 : k ≤ mid := by omega
      rw [if_neg hk, if_pos hk2, ih]
      simp [hk, hk2]
      omega

theorem countLeGreater_spec (mid : Nat) (keys : List Nat) :
    countLeGreater mid keys =
      (keys.countP (fun k => decide (k ≤ mid)),
       keys.countP (fun k => decide (mid < k))) := by
  unfold countLeGreater
  rw [countLeGreater_foldl]
  simp

theorem migrateLoop_aligned (keyHash : Nat → Nat) (mid : Nat) (b : Bool) :
    ∀ (nodes : List Node),
      migrateLoop mid b nodes
          ((nodes.filter (fun n => !(n.key == ""))).map (fun n => keyHash n.location)) =
        some ((nodes.filter (fun n => !(n.key == ""))).filter
          (fun n => if b then decide (keyHash n.location ≤ mid)
                    else decide (mid < keyHash n.location))) := by
  intro nodes
  induction nodes with
  | nil => rfl
  | cons n rest ih =>
    cases hk : n.key == "" with
    | true => simp [migrateLoop, List.filter, hk, ih]
    | false =>
      simp only [List.filter, hk, List.map, migrateLoop, Bool.not_false]
      rw [ih]
      cases b with
      | false =>
        simp [List.filter]
        by_cases hp : mid < keyHash n.location <;> simp [hp]
      | true =>
        simp [List.filter]
        by_cases hp : keyHash n.location ≤ mid <;> simp [hp]

/-- Claim C5: in `splitRange`, letting `L` and `G` be the numbers of valid
local nodes with key-hash `≤ mid` and `> mid` respectively (slot 0 holds
the tombstoned root, recorded by the head hypothesis, so the loop's
`i == 0` skip coincides with the validity filter): when `G ≥ L` the
migrated set is exactly the valid nodes with hash `≤ mid`, with
`leftServer` the chosen peer and `rightServer` the splitting server;
otherwise it is exactly the valid nodes with hash `> mid`, with
`leftServer` the splitting server and `rightServer` the peer. -/
theorem splitRange_direction (keyHash : Nat → Nat) (nodes : List Node) (mid : Nat)
    (selfA peer : String) (h0 : ∀ n ∈ nodes.head?, n.key = "") :
    splitRangeCore keyHash nodes mid selfA peer =
      (if (nodes.filter (fun n => !(n.key == ""))).countP
            (fun n => decide (keyHash n.location ≤ mid)) ≤
          (nodes.filter (fun n => !(n.key == ""))).countP
            (fun n => decide (mid < keyHash n.location)) then
        some { migrated := (nodes.filter (fun n => !(n.key == ""))).filter
                 (fun n => decide (keyHash n.location ≤ mid)),
               leftServer := peer, rightServer := selfA }
      else
        some { migrated := (nodes.filter (fun n => !(n.key == ""))).filter
                 (fun n => decide (mid < keyHash n.location)),
               leftServer := selfA, rightServer := peer }) := by
  unfold splitRangeCore
  dsimp only
  rw [splitKeysLoop_zero keyHash nodes h0, countLeGreater_spec]
  simp only [List.countP_map]
  by_cases hc :
      (nodes.filter (fun n => !(n.key == ""))).countP
          (fun n => decide (keyHash n.location ≤ mid)) ≤
        (nodes.filter (fun n => !(n.key == ""))).countP
          (fun n => decide (mid < keyHash n.location))
  · rw [if_pos ?_, if_pos hc]
    · rw [migrateLoop_aligned keyHash mid true nodes]
      simp
    · simpa [Function.comp] using hc
  · rw [if_neg ?_, if_neg hc]
    · rw [migrateLoop_aligned keyHash mid false nodes]
      simp
    · simpa [Function.comp] using hc

/-- Witness for C5: two valid nodes with hashes 1 and 5 around `mid = 3`
on a store whose slot 0 is the root; here `G = L`, so the low half (the
hash-1 node) moves to the peer. -/
theorem splitRange_direction_witness :
    splitRangeCore (fun loc => loc >>> 32) sampleSplitNodes 3 "self" "peer" =
      some { migrated := [{ location := 1 * 2 ^ 32, dep := 0, children := [], key := "a", value := "1" }],
             leftServer := "peer", rightServer := "self" } :=
  (splitRange_direction (fun loc => loc >>> 32) sampleSplitNodes 3 "self" "peer"
    (by decide)).trans (by decide)

theorem validCount_append (l1 l2 : List Node) :
    validCount (l1 ++ l2) = validCount l1 + validCount l2 := by
  unfold validCount
  rw [List.filter_append, List.length_append]
  push_cast
  ring

theorem newNode_sizeInv (s : Store) (h : sizeInvariant s) (loc dep : Nat) (k v : String)
    (hk : k ≠ "") : sizeInvariant (s.newNode loc dep k v) := by
  have hkb : (k == "") = false := by simpa using hk
  unfold sizeInvariant Store.newNode at *
  rw [validCount_append]
  have hone : validCount [{ location := loc, dep := dep, children := [], key := k, value := v }] = 1 := by
    unfold validCount
    simp [List.filter, hkb]
  dsimp only
  rw [hone]
  omega

theorem removeNodeLoop_absent :
    ∀ (nodes : List Node) (loc : Nat),
      (∀ n ∈ nodes, n.location ≠ loc) → removeNodeLoop loc nodes = none := by
  intro nodes
  induction nodes with
  | nil => intro loc _; rfl
  | cons n rest ih =>
    intro loc h
    have hn : (n.location == loc) = false := by
      simpa using h n (List.mem_cons_self n rest)
    simp [removeNodeLoop, hn, ih loc (fun m hm => h m (List.mem_cons_of_mem n hm))]

theorem validCount_cons (m : Node) (l : List Node) :
    validCount (m :: l) = (if m.key == "" then 0 else 1) + validCount l := by
  unfold validCount
  cases hk : m.key == "" <;> simp [List.filter_cons, hk] <;> omega

theorem removeNodeLoop_found :
    ∀ (nodes : List Node) (loc : Nat) (n : Node),
      nodes.find? (fun m => m.location == loc) = some n →
      ∃ nodes2, removeNodeLoop loc nodes = some nodes2 ∧
        validCount nodes2 = validCount nodes - (if n.key == "" then 0 else 1) := by
  intro nodes
  induction nodes with
  | nil => intro loc n h; simp [List.find?] at h
  | cons m rest ih =>
    intro loc n h
    cases hm : m.location == loc with
    | true =>
      have hn : m = n := by
        simp [List.find?, hm] at h
        simpa using h
      subst hn
      refine ⟨{ location := 0, dep := 0, children := [], key := "", value := "" } :: rest,
        by simp [removeNodeLoop, hm], ?_⟩
      rw [validCount_cons, validCount_cons]
      cases hk : m.key == "" <;> simp [hk] <;> omega
    | false =>
      have h2 : rest.find? (fun m => m.location == loc) = some n := by
        simpa [List.find?, hm] using h
      obtain ⟨rest2, hr, hv⟩ := ih loc n h2
      refine ⟨m :: rest2, by simp [removeNodeLoop, hm, hr], ?_⟩
      rw [validCount_cons, validCount_cons, hv]
      omega

/-- Counterexample to C7 as stated: the freshly initialized store
satisfies the invariant, yet `RemoveNode 0` matches the root slot (whose
`Location` field is 0 and whose key is already empty), tombstones it
again and decrements `Size` to `-1`, breaking the equality. -/
theorem removeNode_breaks_size_invariant :
    sizeInvariant Store.Init ∧ ¬ sizeInvariant (Store.Init.RemoveNode 0) := by
  constructor
  · simp only [sizeInvariant]
    decide
  · simp only [sizeInvariant]
    decide

/-- Claim C7 amended: for every store in which `Size` equals the number
of valid nodes, the store operations preserve the equality provided the
inserted nodes are valid and removals target a valid (or absent)
location: `newNode`, `Set` and `AddNode` with a non-empty key add one
node and increment `Size`; `RemoveNode` on an absent location changes
nothing; and `RemoveNode` on a location whose first matching node is
valid clears that node and decrements `Size`. (As stated the claim
fails: `newNode`/`AddNode` with an empty key, or `RemoveNode` matching an
already tombstoned slot such as the root, still move `Size` and break the
equality.) -/
theorem store_ops_preserve_size_invariant (s : Store) (h : sizeInvariant s) :
    (∀ loc dep k v, k ≠ "" → sizeInvariant (s.newNode loc dep k v)) ∧
      (∀ key value dep hsh r, key ≠ "" → sizeInvariant (s.Set key value dep hsh r).2) ∧
      (∀ n : Node, n.key ≠ "" → sizeInvariant (s.AddNode n)) ∧
      (∀ loc, (∀ n ∈ s.nodes, n.location ≠ loc) → s.RemoveNode loc = s) ∧
      (∀ loc n, s.nodes.find? (fun m => m.location == loc) = some n → n.key ≠ "" →
        sizeInvariant (s.RemoveNode loc)) := by
  refine ⟨?_, ?_, ?_, ?_, ?_⟩
  · intro loc dep k v hk
    exact newNode_sizeInv s h loc dep k v hk
  · intro key value dep hsh r hk
    exact newNode_sizeInv s h _ dep key value hk
  · intro n hk
    exact newNode_sizeInv s h n.location n.dep n.key n.value hk
  · intro loc habs
    unfold Store.RemoveNode
    rw [removeNodeLoop_absent s.nodes loc habs]
  · intro loc n hfind hk
    obtain ⟨nodes2, hr, hv⟩ := removeNodeLoop_found s.nodes loc n hfind
    have hkb : (n.key == "") = false := by simpa using hk
    rw [hkb] at hv
    simp only [Bool.false_eq_true, if_false] at hv
    unfold sizeInvariant Store.RemoveNode
    rw [hr]
    dsimp only
    unfold sizeInvariant at h
    omega

/-- Witness for the amended C7 on a one-node store: adding a second valid
node, removing an absent location, and removing the valid node each
preserve the invariant. -/
theorem store_ops_preserve_size_invariant_witness :
    sizeInvariant ((Store.Init.newNode 42 0 "a" "1").newNode 99 0 "b" "2") ∧
      (Store.Init.newNode 42 0 "a" "1").RemoveNode 77 = Store.Init.newNode 42 0 "a" "1" ∧
      sizeInvariant ((Store.Init.newNode 42 0 "a" "1").RemoveNode 42) :=
  ⟨(store_ops_preserve_size_invariant (Store.Init.newNode 42 0 "a" "1")
      (by simp only [sizeInvariant]; decide)).1 99 0 "b" "2" (by decide),
   (store_ops_preserve_size_invariant (Store.Init.newNode 42 0 "a" "1")
      (by simp only [sizeInvariant]; decide)).2.2.2.1 77 (by decide),
   (store_ops_preserve_size_invariant (Store.Init.newNode 42 0 "a" "1")
      (by simp only [sizeInvariant]; decide)).2.2.2.2 42
      { location := 42, dep := 0, children := [], key := "a", value := "1" }
      (by decide) (by decide)⟩

/-- Claim C8: when the merge path of a locally handled `Set` runs
(non-zero dependency, parent with more than one child after the attach,
a configured merge function) and the action response fails to decode,
`Set` returns the decoding error together with a response that still
carries the freshly created node's location, and the node created by
this `Set` remains in the store — the write is not rolled back. -/
theorem set_merge_decode_error_keeps_write (cfg : ServerCfg) (s : Store)
    (key value : String) (dep h r : Nat) (e : String) (loc : Nat) (s1 : Store)
    (parent : Node) (s2 : Store)
    (hloc : loc = (s.Set key value dep h r).1)
    (hs1 : s1 = (s.Set key value dep h r).2)
    (hdep : dep ≠ 0)
    (hadd : s1.AddChild dep loc = some (parent, s2))
    (hfork : 1 < parent.children.length)
    (hmerge : (lookupMerge cfg.mergeFunction dep).getD cfg.globalMergeFunction ≠ "") :
    serverSetLocal cfg s key value dep h r (Except.error e) = some (loc, some e, s2) ∧
      s2.GetNode loc =
        some { location := loc, dep := dep, children := [], key := key, value := value } := by
  constructor
  · unfold serverSetLocal
    dsimp only
    rw [← hloc, ← hs1, if_pos hdep, hadd]
    dsimp only
    rw [if_pos hfork, if_pos hmerge]
  · have hloc2 : loc = storeSetLoc h r := hloc
    have hs1b : s1 =
        { nodes := s.nodes ++ [{ location := loc, dep := dep, children := [],
                                 key := key, value := value }],
          memLocation := (loc, s.nodes.length) :: s.memLocation,
          size := s.size + 1 } := by
      rw [hs1, hloc2]
      rfl
    unfold Store.AddChild at hadd
    cases hl : lookupLoc s1.memLocation dep with
    | none => rw [hl] at hadd; simp at hadd
    | some m =>
      rw [hl] at hadd
      dsimp only at hadd
      cases hg : s1.nodes.get? m with
      | none => rw [hg] at hadd; simp at hadd
      | some node =>
        rw [hg] at hadd
        dsimp only at hadd
        have hpair : { node with children := node.children ++ [loc] } = parent ∧
            { s1 with nodes := s1.nodes.set m { node with children := node.children ++ [loc] } } = s2 := by
          constructor
          · exact congrArg Prod.fst (Option.some.inj hadd)
          · exact congrArg Prod.snd (Option.some.inj hadd)
        have hmne : m ≠ s.nodes.length := by
          intro hEq
          have hnewget : s1.nodes.get? m =
              some { location := loc, dep := dep, children := [], key := key, value := value } := by
            rw [hs1b, hEq]
            exact List.get?_concat_length s.nodes _
          have hnode : node =
              { location := loc, dep := dep, children := [], key := key, value := value } := by
            rw [hg] at hnewget
            exact Option.some.inj hnewget
          have : parent.children.length = 1 := by
            rw [← hpair.1, hnode]
            rfl
          omega
        have hlookuploc : lookupLoc s1.memLocation loc = some s.nodes.length := by
          rw [hs1b]
          simp [lookupLoc, List.find?]
        rw [← hpair.2]
        unfold Store.GetNode
        dsimp only
        rw [hlookuploc]
        dsimp only [Option.bind]
        rw [List.get?_set_ne _ _ hmne, hs1b]
        exact List.get?_concat_length s.nodes _

/-- Witness for C8: a parent with one existing child receives a second
one; the merge path fires with the global merge function and a decode
error, and the freshly written node survives. -/
theorem set_merge_decode_error_keeps_write_witness :
    serverSetLocal
        { threshold := 10, availableServers := [], mergeFunction := [],
          globalMergeFunction := "m" }
        { nodes := [{ location := 0, dep := ROOT_DEP, children := [], key := "", value := "" },
                    { location := 100, dep := ROOT_DEP, children := [7], key := "p", value := "v" }],
          memLocation := [(0, 0), (100, 1)], size := 1 }
        "k" "v2" 100 1 2 (Except.error "bad json") =
      some (storeSetLoc 1 2, some "bad json",
        { nodes := [{ location := 0, dep := ROOT_DEP, children := [], key := "", value := "" },
                    { location := 100, dep := ROOT_DEP, children := [7, storeSetLoc 1 2], key := "p", value := "v" },
                    { location := storeSetLoc 1 2, dep := 100, children := [], key := "k", value := "v2" }],
          memLocation := [(storeSetLoc 1 2, 2), (0, 0), (100, 1)], size := 2 }) ∧
      Store.GetNode
        { nodes := [{ location := 0, dep := ROOT_DEP, children := [], key := "", value := "" },
                    { location := 100, dep := ROOT_DEP, children := [7, storeSetLoc 1 2], key := "p", value := "v" },
                    { location := storeSetLoc 1 2, dep := 100, children := [], key := "k", value := "v2" }],
          memLocation := [(storeSetLoc 1 2, 2), (0, 0), (100, 1)], size := 2 }
        (storeSetLoc 1 2) =
        some { location := storeSetLoc 1 2, dep := 100, children := [], key := "k", value := "v2" } :=
  set_merge_decode_error_keeps_write
    { threshold := 10, availableServers := [], mergeFunction := [], globalMergeFunction := "m" }
    { nodes := [{ location := 0, dep := ROOT_DEP, children := [], key := "", value := "" },
                { location := 100, dep := ROOT_DEP, children := [7], key := "p", value := "v" }],
      memLocation := [(0, 0), (100, 1)], size := 1 }
    "k" "v2" 100 1 2 "bad json" (storeSetLoc 1 2) _ _ _
    rfl rfl (by decide) rfl (by decide) (by decide)

/-- Counterexample to C3 as stated: a forwarded `Set` whose remote call
fails (here with error `remote failure`) returns its response with a nil
error to the original caller — `Server.Set` ends with
`return result, nil`, discarding the remote error — so the remote error
is not returned unchanged. -/
theorem set_forward_drops_remote_error :
    serverSetForward "a" "b" none (5, some "remote failure") 0 10 [] =
      some ((5, none), 1) ∧
      ((5, (none : Option String)), 1).1.2 ≠ some "remote failure" := by
  refine ⟨rfl, ?_⟩
  simp

/-- Claim C3 amended: for forwarded `Get`, `GetNode`, `AddChild` and
`RemoveChildren` the remote call's result — error included — is returned
unchanged, with exactly one remote invocation (no retry); for a
forwarded `Set` the remote response is likewise obtained by exactly one
remote invocation with no retry, but the remote error is replaced by nil
(`Server.Set` falls through to `return result, nil`), so only dial
errors propagate for `Set`. -/
theorem forward_no_retry (selfA addr : String) (hne : (addr == selfA) = false)
    (lG : String × Option String) (lN lA : Node × Option String) (lR : Unit × Option String)
    (rG : String × Option String) (rN rA : Node × Option String) (rR : Unit × Option String)
    (rS : Nat × Option String) (storeSize threshold : Int) (avail : List String)
    (hsp : ¬(threshold < storeSize ∧ avail ≠ [])) :
    serverGetDispatch selfA addr lG none rG = (rG, 1) ∧
      serverGetNodeDispatch selfA addr lN none rN = (rN, 1) ∧
      serverAddChildDispatch selfA addr lA none rA = (rA, 1) ∧
      serverRemoveChildrenDispatch selfA addr lR none rR = (rR, 1) ∧
      serverSetForward selfA addr none rS storeSize threshold avail = some ((rS.1, none), 1) := by
  unfold serverGetDispatch serverGetNodeDispatch serverAddChildDispatch
    serverRemoveChildrenDispatch serverSetForward
  rw [hne]
  simp [hsp]

/-- Witness for the amended C3 at concrete arguments, with a failing
remote `Get` propagated unchanged and a failing remote `Set` losing its
error. -/
theorem forward_no_retry_witness :
    serverGetDispatch "self" "owner" ("local", none) none ("", some "boom") =
        (("", some "boom"), 1) ∧
      serverGetNodeDispatch "self" "owner" (emptyNode, none) none (emptyNode, some "boom") =
        ((emptyNode, some "boom"), 1) ∧
      serverAddChildDispatch "self" "owner" (emptyNode, none) none (emptyNode, some "boom") =
        ((emptyNode, some "boom"), 1) ∧
      serverRemoveChildrenDispatch "self" "owner" ((), none) none ((), some "boom") =
        (((), some "boom"), 1) ∧
      serverSetForward "self" "owner" none (9, some "boom") 0 10 [] = some ((9, none), 1) :=
  forward_no_retry "self" "owner" (by decide)
    ("local", none) (emptyNode, none) (emptyNode, none) ((), none)
    ("", some "boom") (emptyNode, some "boom") (emptyNode, some "boom") ((), some "boom")
    (9, some "boom") 0 10 [] (by simp)

end OpenwhiskKV
